import Mathlib

/-!
Shallow embedding of `naming.py` (github.com/csaez/naming, Python 2), the
single source file of this repository, together with theorems settling the
frozen claims about its specification.

Modelling conventions:

- Python runtime values are embedded as the inductive `Value`, covering the
  kinds of values the library manipulates: `None`, `bool`, `int`, `str`,
  `list` and `dict`.  Python `long` and `float` play no role in any claim and
  are omitted.
- Python exceptions are embedded as `Except String`: a raised exception is
  `.error msg`.  Operations that can raise (`set.add` and `dict.get` on an
  unhashable argument, `list.append` called with two arguments, filesystem
  calls) return `Except`.
- A Python `set` is embedded as a duplicate-free list in insertion order;
  `set.add` is `pyAdd`, which deduplicates with Python value equality `pyEq`
  (under which `True == 1` and `False == 0`) and raises `TypeError` on an
  unhashable element, exactly as CPython does.
- A Python `dict` used as data (the mapping of a Lookup field, a JSON
  document) is embedded as an association list.  Iteration order of a
  Python 2 `dict` is unspecified; the embedding fixes it to insertion order,
  so `d.values()[0]` is the value of the first inserted key.  `Profile.fields`
  is an `OrderedDict` in the source, whose iteration order genuinely is
  insertion order.
- `logging.error` calls are recorded in an explicit log component (the list
  of values passed to the single `logging.error` call inside `Field.solve`),
  so that theorems can speak about what gets reported.
-/

namespace Naming

/-- Embedded Python runtime values. -/
inductive Value where
  | vNone : Value
  | vBool : Bool → Value
  | vInt : Int → Value
  | vStr : String → Value
  | vList : List Value → Value
  | vDict : List (Value × Value) → Value

/-- Python hashability: scalars are hashable, `list` and `dict` are not. -/
def Value.hashable : Value → Bool
  | .vList _ => false
  | .vDict _ => false
  | _ => true

/-- Python truthiness (`bool(v)`): `None`, `False`, `0`, and empty
containers and strings are falsy. -/
def Value.truthy : Value → Bool
  | .vNone => false
  | .vBool b => b
  | .vInt n => n != 0
  | .vStr s => !s.isEmpty
  | .vList l => !l.isEmpty
  | .vDict l => !l.isEmpty

/-- The `isinstance(val, basestring)` test. -/
def Value.isStr : Value → Bool
  | .vStr _ => true
  | _ => false

/-- The `type(val) == int` test (a Python 2 `bool` has type `bool`, so
`True` fails this test). -/
def Value.isIntExact : Value → Bool
  | .vInt _ => true
  | _ => false

/-- The entries of a value that is a `dict` (used only when `Field.solve`
consults `self.value` of a `DICT_TYPE` field, whose value is a dict). -/
def Value.dictEntries : Value → List (Value × Value)
  | .vDict l => l
  | _ => []

/-- Python value equality `==` on the values that ever get compared here:
scalar comparison, with the numeric identification of `bool` and `int`
(`True == 1`).  Two containers are never compared by the library: every
comparison happens inside a hash lookup (`set.add` / `dict.get`), which has
already raised on an unhashable probe, and sets and dict keys never hold
containers; the catch-all therefore only ever compares values of distinct
scalar shapes, where Python also answers false. -/
def pyEq : Value → Value → Bool
  | .vNone, .vNone => true
  | .vBool a, .vBool b => a == b
  | .vInt a, .vInt b => a == b
  | .vStr a, .vStr b => a == b
  | .vBool a, .vInt b => (if a then (1 : Int) else 0) == b
  | .vInt a, .vBool b => a == (if b then (1 : Int) else 0)
  | _, _ => false

/-- `TypeError` message raised by CPython when hashing a `list`/`dict`. -/
def unhashableError : String := "TypeError: unhashable type"

/-- Python `set.add`: raises `TypeError` on an unhashable element, is a
no-op when an equal element is already present, otherwise inserts. -/
def pyAdd (s : List Value) (v : Value) : Except String (List Value) :=
  if v.hashable then
    .ok (if s.any (fun x => pyEq x v) then s else s ++ [v])
  else .error unhashableError

/-- Python `dict.get(key)`: raises `TypeError` on an unhashable key,
returns the mapped value of the first matching key, and `None` when the key
is absent. -/
def pyGet (entries : List (Value × Value)) (k : Value) : Except String Value :=
  if k.hashable then
    .ok (match entries.find? (fun p => pyEq p.1 k) with
         | some p => p.2
         | none => .vNone)
  else .error unhashableError

/-- Python `str.zfill(width)` on the character list: left-pad with `'0'`
to `width`, inserting the zeros after a leading sign character when
present. -/
def zfillList (l : List Char) (width : Nat) : List Char :=
  if width ≤ l.length then l
  else
    match l with
    | [] => List.replicate width '0'
    | c :: rest =>
      if c = '-' ∨ c = '+' then c :: (List.replicate (width - (rest.length + 1)) '0' ++ rest)
      else List.replicate (width - (rest.length + 1)) '0' ++ (c :: rest)

/-- Python `str.zfill(width)`. -/
def zfill (s : String) (width : Nat) : String := ⟨zfillList s.data width⟩

/-- Field type tags, as in the source (`STR_TYPE = 0`). -/
def STR_TYPE : Nat := 0

/-- `DICT_TYPE = 1`. -/
def DICT_TYPE : Nat := 1

/-- `INT_TYPE = 2`. -/
def INT_TYPE : Nat := 2

/-- The `Field` object.  `ftype` embeds the `_type` attribute (an
identifier cannot begin with an underscore in Lean).  `padding` is only
ever read when `ftype = INT_TYPE`; for the other kinds the source never
sets the attribute and the stored number is irrelevant (0 here). -/
structure Field where
  name : String
  required : Bool
  value : Value
  ftype : Nat
  padding : Nat
  default : Value

/-- `Field._initStr` composed with the common `__init__` part, for a field
whose value is a `str`: `self.default = kwds.get("default")` (so `None`
when the keyword is absent). -/
def initStr (name : String) (value : String) (required : Bool)
    (defaultKw : Option Value) : Field :=
  ⟨name, required, .vStr value, STR_TYPE, 0, defaultKw.getD .vNone⟩

/-- `Field._initDict` composed with the common `__init__` part, for a field
whose value is a `dict`:
`self.default = kwds.get("default", self.value.values()[0])`.
Python evaluates `self.value.values()[0]` eagerly, so an empty mapping
raises `IndexError` even when a default keyword is supplied; that raise is
the `none` result. -/
def initDict (name : String) (value : List (Value × Value)) (required : Bool)
    (defaultKw : Option Value) : Option Field :=
  match value with
  | [] => none
  | (_, v0) :: _ =>
    some ⟨name, required, .vDict value, DICT_TYPE, 0, defaultKw.getD v0⟩

/-- Python `str(v)` as applied by `_initInt` to the `default` keyword.  The
claims only ever exercise scalar defaults; the textual form of a container
is irrelevant to every theorem below and is abstracted. -/
def pyStrOf : Value → String
  | .vNone => "None"
  | .vBool b => if b then "True" else "False"
  | .vInt n => n.repr
  | .vStr s => s
  | .vList _ => "[container]"
  | .vDict _ => "{container}"

/-- `Field._initInt` composed with the common `__init__` part, for a field
whose value is an `int`: `self.padding = kwds.get("padding", 3)` and
`self.default = str(kwds.get("default", 0)).zfill(self.padding)`. -/
def initInt (name : String) (value : Int) (required : Bool)
    (paddingKw : Option Nat) (defaultKw : Option Value) : Field :=
  let padding := paddingKw.getD 3
  ⟨name, required, .vInt value, INT_TYPE, padding,
    .vStr (zfill (pyStrOf (defaultKw.getD (.vInt 0))) padding)⟩

/-- One iteration of the `for val in values` loop of `Field.solve`
(lines 190-203 of the source), over the state (result set, log).  Note the
dangling `else` of the source: `logging.error` is attached to the
`if self._type == INT_TYPE` test, so it fires for every candidate of a
non-integer field and never for an integer field. -/
def solveStep (f : Field) (rval logs : List Value) (val : Value) :
    Except String (List Value × List Value) :=
  let step1 : Except String (List Value) :=
    if f.ftype = STR_TYPE ∧ val.isStr = false ∧ f.required = true then
      pyAdd rval val
    else .ok rval
  match step1 with
  | .error e => .error e
  | .ok rval1 =>
    let step2 : Except String (List Value) :=
      if f.ftype = DICT_TYPE then
        match pyGet f.value.dictEntries val with
        | .error e => .error e
        | .ok .vNone => .ok rval1
        | .ok v => pyAdd rval1 v
      else .ok rval1
    match step2 with
    | .error e => .error e
    | .ok rval2 =>
      if f.ftype = INT_TYPE then
        match val with
        | .vInt n =>
          match pyAdd rval2 (.vStr (zfill n.repr f.padding)) with
          | .error e => .error e
          | .ok rval3 => .ok (rval3, logs)
        | _ => .ok (rval2, logs)
      else
        .ok (rval2, logs ++ [val])

/-- The whole `for val in values` loop of `Field.solve`. -/
def fieldScan (f : Field) : List Value → List Value → List Value →
    Except String (List Value × List Value)
  | [], rval, logs => .ok (rval, logs)
  | v :: vs, rval, logs =>
    match solveStep f rval logs v with
    | .error e => .error e
    | .ok (rval1, logs1) => fieldScan f vs rval1 logs1

/-- `Field.solve` (lines 186-208): run the loop, then
`if not len(rval) and self.default: rval.add(self.default)`.  The result
pairs the returned set with the log of values passed to `logging.error`. -/
def Field.solve (f : Field) (values : List Value) :
    Except String (List Value × List Value) :=
  match fieldScan f values [] [] with
  | .error e => .error e
  | .ok (rval, logs) =>
    if rval.isEmpty ∧ f.default.truthy = true then
      match pyAdd rval f.default with
      | .error e => .error e
      | .ok rval1 => .ok (rval1, logs)
    else .ok (rval, logs)

/-- The token set returned by `Field.solve`, log discarded. -/
def Field.solveTokens (f : Field) (values : List Value) :
    Except String (List Value) :=
  (f.solve values).map Prod.fst

/-- `Field.unsolve` (lines 210-212): the body is `pass`, so every call
returns `None` whatever the arguments. -/
def Field.unsolve (_f : Field) (_values : List Value) : Value := .vNone

/-- The `Profile` object: an `OrderedDict` of fields (embedded as an
association list in insertion order) and the separator, `"_"` at
construction. -/
structure Profile where
  name : String
  fields : List (String × Field)
  separator : String

/-- `TypeError` raised by CPython when `list.append` is called with two
arguments, as both `Profile.solve` and `Profile.unsolve` do
(`rval.append(name, ...)`, line 248 and line 256). -/
def appendError : String := "TypeError: append() takes exactly one argument (2 given)"

/-- The `for name, field in self.fields.iteritems()` loop of
`Profile.solve` (lines 246-248).  Each iteration first evaluates
`field.solve(*values)` (which may itself raise), then calls
`rval.append(name, field.solve(*values))`, which raises `TypeError`
because `list.append` takes exactly one argument. -/
def profileSolveLoop (values : List Value)
    (acc : List (String × (List Value × List Value))) :
    List (String × Field) →
    Except String (List (String × (List Value × List Value)))
  | [] => .ok acc
  | (_name, field) :: _rest =>
    match field.solve values with
    | .error e => .error e
    | .ok _s => .error appendError

/-- `Profile.solve` (lines 244-249). -/
def Profile.solve (p : Profile) (values : List Value) :
    Except String (List (String × (List Value × List Value))) :=
  profileSolveLoop values [] p.fields

/-- The loop of `Profile.unsolve` (lines 255-256): evaluates
`field.unsolve(*values)` (a no-op returning `None`), then raises on the
two-argument `rval.append`. -/
def profileUnsolveLoop (values : List Value) (acc : List (String × Value)) :
    List (String × Field) → Except String (List (String × Value))
  | [] => .ok acc
  | (_name, field) :: _rest =>
    let _v := field.unsolve values
    .error appendError

/-- Python `str.split(sep)` for a one-character separator: splits on every
occurrence and keeps empty tokens (`"a__b".split("_") == ["a", "", "b"]`,
`"".split("_") == [""]`). -/
def pySplitChar (sep : Char) : List Char → List String
  | [] => [""]
  | c :: rest =>
    let r := pySplitChar sep rest
    if c = sep then "" :: r
    else
      match r with
      | [] => [⟨[c]⟩]
      | s :: ss => ⟨c :: s.data⟩ :: ss

/-- Python `str.split(sep)`.  The separator of every `Profile` is the
one-character string `"_"` set by `__init__` and never reassigned by the
source; separators of other lengths are not exercised by the library and
the fallback arm is never reached in any theorem below. -/
def pySplit (s sep : String) : List String :=
  match sep.data with
  | [c] => pySplitChar c s.data
  | _ => [s]

/-- `Profile.unsolve` (lines 251-257): split `name` on the separator, then
run the loop.  No token-count check of any kind is performed, and no
`TokenCountError` class exists anywhere in the source. -/
def Profile.unsolve (p : Profile) (nm : String) :
    Except String (List (String × Value)) :=
  let values := (pySplit nm p.separator).map Value.vStr
  profileUnsolveLoop values [] p.fields

/-! JSON driver.  The storage directory is embedded as
`Option (List (String × String))`: `none` when `os.path.exists(path)` is
false, otherwise the list of (file name, serialized content) entries, all
regular files.  `json.load` / `json.dump` of the serialized content is
abstracted as the identity on the serialized text: no claim settled below
depends on the decoded shape of a file body. -/

/-- Python `str.replace(old, new)` with `new = ""`: remove every
occurrence of `old` (the source removes every `".json"` substring of the
file name, not just a suffix). -/
def pyReplaceAll (s pat : String) : String := String.join (s.splitOn pat)

/-- Python `dict.__setitem__` on an association list: overwrite the first
matching key or append. -/
def pyDictSet (m : List (String × String)) (k v : String) :
    List (String × String) :=
  match m with
  | [] => [(k, v)]
  | (k0, v0) :: rest =>
    if k0 = k then (k0, v) :: rest else (k0, v0) :: pyDictSet rest k v

/-- Python `dict.update`: set every key of `objs` in order. -/
def memoUpdate (m : List (String × String)) (objs : List (String × String)) :
    List (String × String) :=
  objs.foldl (fun acc p => pyDictSet acc p.1 p.2) m

/-- The mutable state of a `JSONDriver`: the inherited `MemoDriver.value`
attribute (which `__init__` sets to the result of `self.load()`, hence
possibly `None`), and the storage directory. -/
structure JSONDriverState where
  value : Option (List (String × String))
  fs : Option (List (String × String))

/-- `JSONDriver.load` (lines 302-319) as a function of the directory:
`if not os.path.exists(self.path): return` yields Python `None` (`none`);
otherwise every regular file whose name ends in `".json"` is read into the
result dict under `filename.replace(".json", "")`. -/
def jsonLoadFS (fs : Option (List (String × String))) :
    Option (List (String × String)) :=
  match fs with
  | none => none
  | some files =>
    some (files.foldl
      (fun rval p =>
        if p.1.endsWith ".json" then pyDictSet rval (pyReplaceAll p.1 ".json") p.2
        else rval)
      [])

/-- `JSONDriver.load` on a driver state. -/
def jsonDriverLoad (st : JSONDriverState) : Option (List (String × String)) :=
  jsonLoadFS st.fs

/-- `MemoDriver.__init__` as run on a `JSONDriver`: `self.value` is set to
`self.load()`, which dispatches to `JSONDriver.load` — so it is `None`
when the directory does not exist. -/
def jsonDriverInit (fs : Option (List (String × String))) : JSONDriverState :=
  ⟨jsonLoadFS fs, fs⟩

/-- `JSONDriver.dump` (lines 289-300).  First `super().dump` updates the
in-memory `self.value` (raising `AttributeError` when it is `None`).  Then
the guard `if os.path.exists(self.path): os.mkdir(self.path)` makes
`os.mkdir` raise `OSError` whenever the directory already exists, and
skips creating it when it does not — in which case the first
`open(..., "w")` of the loop raises `IOError`.  Only an empty `objs` with
a missing directory escapes without an exception, and no file is ever
written. -/
def jsonDriverDump (st : JSONDriverState) (objs : List (String × String)) :
    Except String JSONDriverState :=
  match st.value with
  | none => .error "AttributeError: NoneType object has no attribute update"
  | some v =>
    let st1 : JSONDriverState := ⟨some (memoUpdate v objs), st.fs⟩
    match st1.fs with
    | some _ => .error "OSError: [Errno 17] File exists"
    | none =>
      match objs with
      | [] => .ok st1
      | _ :: _ => .error "IOError: [Errno 2] No such file or directory"

/-! Supporting lemmas. -/

/-- Python equality is reflexive on hashable values. -/
lemma pyEq_refl (v : Value) (h : v.hashable = true) : pyEq v v = true := by
  cases v <;> simp_all [pyEq, Value.hashable]

/-- The only value Python-equal to a string is that string itself. -/
lemma pyEq_vStr_iff (t : Value) (x : String) :
    pyEq t (.vStr x) = true ↔ t = .vStr x := by
  cases t <;> simp [pyEq]

/-- Inversion of a successful `set.add`. -/
lemma pyAdd_ok {rv rv1 : List Value} {v : Value}
    (h : pyAdd rv v = .ok rv1) :
    v.hashable = true ∧
      ((∃ t ∈ rv, pyEq t v = true) ∧ rv1 = rv ∨ rv1 = rv ++ [v]) := by
  unfold pyAdd at h
  split at h
  · next hh =>
    refine ⟨hh, ?_⟩
    rcases h with ⟨⟩
    by_cases hany : rv.any (fun x => pyEq x v) = true
    · left
      exact ⟨by simpa using hany, by simp [hany]⟩
    · right
      simp [hany]
  · exact absurd h (by simp)

/-- `set.add` of a hashable value succeeds. -/
lemma pyAdd_hashable (rv : List Value) (v : Value) (h : v.hashable = true) :
    pyAdd rv v = .ok (if rv.any (fun x => pyEq x v) then rv else rv ++ [v]) := by
  simp [pyAdd, h]

/-- A successful `set.add` leaves every existing element in place. -/
lemma pyAdd_mono {rv rv1 : List Value} {v : Value}
    (h : pyAdd rv v = .ok rv1) : ∀ t ∈ rv, t ∈ rv1 := by
  rcases pyAdd_ok h with ⟨-, ⟨-, rfl⟩ | rfl⟩ <;> simp_all

/-- `dict.get` of a hashable key succeeds and answers by the first
matching entry. -/
lemma pyGet_hashable (entries : List (Value × Value)) (k : Value)
    (h : k.hashable = true) :
    pyGet entries k =
      .ok (match entries.find? (fun p => pyEq p.1 k) with
           | some p => p.2
           | none => .vNone) := by
  simp [pyGet, h]

/-- A non-`None` result of `dict.get` is one of the mapped values. -/
lemma pyGet_ok_mem {entries : List (Value × Value)} {k v : Value}
    (h : pyGet entries k = .ok v) (hv : v ≠ .vNone) :
    ∃ p ∈ entries, p.2 = v := by
  unfold pyGet at h
  split at h
  · rcases h with ⟨⟩
    cases hf : entries.find? (fun p => pyEq p.1 k) with
    | none => simp [hf] at hv
    | some p => exact ⟨p, List.mem_of_find?_eq_some hf, by simp [hf]⟩
  · exact absurd h (by simp)

/-- Every character of the decimal rendering of a natural number is a
digit. -/
lemma toDigitsCore_digits :
    ∀ (fuel n : Nat) (ds : List Char), (∀ c ∈ ds, c.isDigit = true) →
      ∀ c ∈ Nat.toDigitsCore 10 fuel n ds, c.isDigit = true := by
  intro fuel
  induction fuel with
  | zero => intro n ds hds; simpa [Nat.toDigitsCore] using hds
  | succ fuel ih =>
    intro n ds hds c hc
    have hmod : n % 10 < 10 := Nat.mod_lt _ (by norm_num)
    have hd : (Nat.digitChar (n % 10)).isDigit = true := by
      interval_cases h : n % 10 <;> rfl
    rw [Nat.toDigitsCore] at hc
    split at hc
    · rcases List.mem_cons.mp hc with rfl | h
      · exact hd
      · exact hds _ h
    · exact ih _ _ (by
        intro x hx
        rcases List.mem_cons.mp hx with rfl | h
        · exact hd
        · exact hds _ h) _ hc

/-- `Nat.repr` consists of digits. -/
lemma nat_repr_digits (n : Nat) : ∀ c ∈ (Nat.repr n).data, c.isDigit = true := by
  intro c hc
  exact toDigitsCore_digits (n + 1) n [] (by simp) c hc

/-- `Int.repr` of a nonnegative integer consists of digits. -/
lemma int_repr_digits (n : Int) (h : 0 ≤ n) :
    ∀ c ∈ (Int.repr n).data, c.isDigit = true := by
  cases n with
  | ofNat m => exact nat_repr_digits m
  | negSucc m => exact absurd h (by simp)

/-- `zfillList` pads at least to the requested width. -/
lemma zfillList_length (l : List Char) (P : Nat) : P ≤ (zfillList l P).length := by
  cases l with
  | nil =>
    simp only [zfillList]
    split
    · next h => simpa using h
    · simp
  | cons c rest =>
    simp only [zfillList]
    split
    · next h => simpa using h
    · next h =>
      split <;> simp <;> omega

/-- `zfill` pads at least to the requested width. -/
lemma zfill_length (s : String) (P : Nat) : P ≤ (zfill s P).length := by
  have : (zfill s P).length = (zfillList s.data P).length := rfl
  rw [this]
  exact zfillList_length s.data P

/-- A digit character is not a sign character. -/
lemma digit_not_sign {c : Char} (h : c.isDigit = true) : ¬(c = '-' ∨ c = '+') := by
  rintro (rfl | rfl) <;> exact absurd h (by decide)

/-- `zfillList` of all-digit characters is all digits. -/
lemma zfillList_digits (l : List Char) (P : Nat)
    (h : ∀ c ∈ l, c.isDigit = true) :
    ∀ c ∈ zfillList l P, c.isDigit = true := by
  cases l with
  | nil =>
    simp only [zfillList]
    split
    · simp
    · intro c hc
      have := List.eq_of_mem_replicate hc
      simp [this]
  | cons c0 rest =>
    have hc0 : c0.isDigit = true := h c0 (by simp)
    simp only [zfillList]
    split
    · exact h
    · rw [if_neg (digit_not_sign hc0)]
      intro c hc
      rcases List.mem_append.mp hc with hrep | hmem
      · have := List.eq_of_mem_replicate hrep
        simp [this]
      · exact h c hmem

/-- `zfill` of an all-digit string is an all-digit string. -/
lemma zfill_digits (s : String) (P : Nat)
    (h : ∀ c ∈ s.data, c.isDigit = true) :
    ∀ c ∈ (zfill s P).data, c.isDigit = true := by
  have : (zfill s P).data = zfillList s.data P := rfl
  rw [this]
  exact zfillList_digits s.data P h

/-- `solveStep` on a Text field. -/
lemma solveStep_str {f : Field} (hf : f.ftype = STR_TYPE)
    (rv lg : List Value) (v : Value) :
    solveStep f rv lg v =
      if v.isStr = false ∧ f.required = true then
        (pyAdd rv v).map (fun rv1 => (rv1, lg ++ [v]))
      else .ok (rv, lg ++ [v]) := by
  obtain ⟨nm, req, val, ft, pad, dflt⟩ := f
  simp only [STR_TYPE] at hf
  subst hf
  by_cases hc : v.isStr = false ∧ req = true
  · rw [if_pos hc]
    cases hadd : pyAdd rv v with
    | error e =>
      simp [solveStep, STR_TYPE, DICT_TYPE, INT_TYPE, hc.1, hc.2, hadd, Except.map]
    | ok rv1 =>
      simp [solveStep, STR_TYPE, DICT_TYPE, INT_TYPE, hc.1, hc.2, hadd, Except.map]
  · rw [if_neg hc]
    simp only [solveStep, STR_TYPE, DICT_TYPE, INT_TYPE]
    rw [if_neg (by rintro ⟨-, h1, h2⟩; exact hc ⟨h1, h2⟩)]
    simp

/-- `solveStep` on a Lookup field. -/
lemma solveStep_dict {f : Field} (hf : f.ftype = DICT_TYPE)
    (rv lg : List Value) (v : Value) :
    solveStep f rv lg v =
      match pyGet f.value.dictEntries v with
      | .error e => .error e
      | .ok .vNone => .ok (rv, lg ++ [v])
      | .ok w => (pyAdd rv w).map (fun rv1 => (rv1, lg ++ [v])) := by
  obtain ⟨nm, req, val, ft, pad, dflt⟩ := f
  simp only [DICT_TYPE] at hf
  subst hf
  cases hget : pyGet val.dictEntries v with
  | error e =>
    simp [solveStep, STR_TYPE, DICT_TYPE, INT_TYPE, hget]
  | ok w =>
    cases w with
    | vNone => simp [solveStep, STR_TYPE, DICT_TYPE, INT_TYPE, hget]
    | vBool b =>
      cases hadd : pyAdd rv (.vBool b) with
      | error e => simp [solveStep, STR_TYPE, DICT_TYPE, INT_TYPE, hget, hadd, Except.map]
      | ok rv1 => simp [solveStep, STR_TYPE, DICT_TYPE, INT_TYPE, hget, hadd, Except.map]
    | vInt n =>
      cases hadd : pyAdd rv (.vInt n) with
      | error e => simp [solveStep, STR_TYPE, DICT_TYPE, INT_TYPE, hget, hadd, Except.map]
      | ok rv1 => simp [solveStep, STR_TYPE, DICT_TYPE, INT_TYPE, hget, hadd, Except.map]
    | vStr s =>
      cases hadd : pyAdd rv (.vStr s) with
      | error e => simp [solveStep, STR_TYPE, DICT_TYPE, INT_TYPE, hget, hadd, Except.map]
      | ok rv1 => simp [solveStep, STR_TYPE, DICT_TYPE, INT_TYPE, hget, hadd, Except.map]
    | vList l =>
      cases hadd : pyAdd rv (.vList l) with
      | error e => simp [solveStep, STR_TYPE, DICT_TYPE, INT_TYPE, hget, hadd, Except.map]
      | ok rv1 => simp [solveStep, STR_TYPE, DICT_TYPE, INT_TYPE, hget, hadd, Except.map]
    | vDict d =>
      cases hadd : pyAdd rv (.vDict d) with
      | error e => simp [solveStep, STR_TYPE, DICT_TYPE, INT_TYPE, hget, hadd, Except.map]
      | ok rv1 => simp [solveStep, STR_TYPE, DICT_TYPE, INT_TYPE, hget, hadd, Except.map]

/-- `solveStep` on an Integer field and an `int` candidate. -/
lemma solveStep_int_vInt {f : Field} (hf : f.ftype = INT_TYPE)
    (rv lg : List Value) (n : Int) :
    solveStep f rv lg (.vInt n) =
      .ok
        (if rv.any (fun x => pyEq x (.vStr (zfill n.repr f.padding))) then rv
         else rv ++ [.vStr (zfill n.repr f.padding)], lg) := by
  obtain ⟨nm, req, val, ft, pad, dflt⟩ := f
  simp only [INT_TYPE] at hf
  subst hf
  cases hany : rv.any (fun x => pyEq x (.vStr (zfill n.repr pad))) with
  | true => simp [solveStep, STR_TYPE, DICT_TYPE, INT_TYPE, pyAdd, Value.hashable, hany]
  | false => simp [solveStep, STR_TYPE, DICT_TYPE, INT_TYPE, pyAdd, Value.hashable, hany]

/-- `solveStep` on an Integer field and a candidate that is not exactly an
`int`: the candidate is skipped and nothing is logged. -/
lemma solveStep_int_other {f : Field} (hf : f.ftype = INT_TYPE)
    (rv lg : List Value) (v : Value) (hv : v.isIntExact = false) :
    solveStep f rv lg v = .ok (rv, lg) := by
  obtain ⟨nm, req, val, ft, pad, dflt⟩ := f
  simp only [INT_TYPE] at hf
  subst hf
  cases v <;> simp_all [solveStep, STR_TYPE, DICT_TYPE, INT_TYPE, Value.isIntExact]

/-- Scan invariant for a Text field: a successful scan only ever adds
candidates that are non-strings with the field required, adds all of them
(up to Python equality), and removes nothing. -/
lemma fieldScan_str {f : Field} (hf : f.ftype = STR_TYPE) :
    ∀ (vs rv lg rv' lg' : List Value),
      fieldScan f vs rv lg = .ok (rv', lg') →
      (∀ t ∈ rv', t ∈ rv ∨ (t ∈ vs ∧ t.isStr = false ∧ f.required = true))
      ∧ (∀ v ∈ vs, v.isStr = false → f.required = true →
          ∃ t ∈ rv', pyEq t v = true)
      ∧ (∀ t ∈ rv, t ∈ rv') := by
  intro vs
  induction vs with
  | nil =>
    intro rv lg rv' lg' h
    simp only [fieldScan] at h
    rcases h with ⟨⟩
    exact ⟨fun t ht => Or.inl ht, by simp, fun t ht => ht⟩
  | cons v vs ih =>
    intro rv lg rv' lg' h
    simp only [fieldScan, solveStep_str hf] at h
    by_cases hc : v.isStr = false ∧ f.required = true
    · rw [if_pos hc] at h
      cases hadd : pyAdd rv v with
      | error e => rw [hadd] at h; simp [Except.map] at h
      | ok rv1 =>
        rw [hadd] at h
        simp only [Except.map] at h
        obtain ⟨h1, h2, h3⟩ := ih rv1 (lg ++ [v]) rv' lg' h
        rcases pyAdd_ok hadd with ⟨hhash, ⟨⟨t0, ht0, hpe⟩, rfl⟩ | rfl⟩
        · refine ⟨?_, ?_, h3⟩
          · intro t ht
            rcases h1 t ht with hin | ⟨hin, hs, hr⟩
            · exact Or.inl hin
            · exact Or.inr ⟨List.mem_cons_of_mem _ hin, hs, hr⟩
          · intro w hw hws hwr
            rcases List.mem_cons.mp hw with rfl | hw'
            · exact ⟨t0, h3 t0 ht0, hpe⟩
            · exact h2 w hw' hws hwr
        · refine ⟨?_, ?_, fun t ht => h3 t (List.mem_append_left _ ht)⟩
          · intro t ht
            rcases h1 t ht with hin | ⟨hin, hs, hr⟩
            · rcases List.mem_append.mp hin with hin' | hin'
              · exact Or.inl hin'
              · have : t = v := by simpa using hin'
                subst this
                exact Or.inr ⟨List.mem_cons_self _ _, hc.1, hc.2⟩
            · exact Or.inr ⟨List.mem_cons_of_mem _ hin, hs, hr⟩
          · intro w hw hws hwr
            rcases List.mem_cons.mp hw with rfl | hw'
            · exact ⟨w, h3 w (by simp), pyEq_refl w hhash⟩
            · exact h2 w hw' hws hwr
    · rw [if_neg hc] at h
      obtain ⟨h1, h2, h3⟩ := ih rv (lg ++ [v]) rv' lg' h
      refine ⟨?_, ?_, h3⟩
      · intro t ht
        rcases h1 t ht with hin | ⟨hin, hs, hr⟩
        · exact Or.inl hin
        · exact Or.inr ⟨List.mem_cons_of_mem _ hin, hs, hr⟩
      · intro w hw hws hwr
        rcases List.mem_cons.mp hw with rfl | hw'
        · exact absurd ⟨hws, hwr⟩ hc
        · exact h2 w hw' hws hwr

/-- Scan of a Lookup field over candidates that all miss the mapping (or
hit an entry mapped to `None`): the result set is unchanged and every
candidate is logged. -/
lemma fieldScan_dict_absent {f : Field} (hf : f.ftype = DICT_TYPE) :
    ∀ (ks rv lg : List Value),
      (∀ x ∈ ks, x.hashable = true ∧ pyGet f.value.dictEntries x = .ok .vNone) →
      fieldScan f ks rv lg = .ok (rv, lg ++ ks) := by
  intro ks
  induction ks with
  | nil => intro rv lg _; simp [fieldScan]
  | cons k ks ih =>
    intro rv lg habs
    have hk := habs k (List.mem_cons_self _ _)
    simp only [fieldScan, solveStep_dict hf, hk.2]
    rw [ih rv (lg ++ [k]) (fun x hx => habs x (List.mem_cons_of_mem _ hx))]
    simp

/-- `solveStep` of a Lookup field on a candidate that hits an entry with a
hashable, non-`None` mapped value adds exactly that value. -/
lemma solveStep_dict_found {f : Field} (hf : f.ftype = DICT_TYPE)
    {v w : Value} (hget : pyGet f.value.dictEntries v = .ok w)
    (hnn : w ≠ .vNone) (hw : w.hashable = true) (rv lg : List Value) :
    solveStep f rv lg v =
      .ok (if rv.any (fun x => pyEq x w) then rv else rv ++ [w], lg ++ [v]) := by
  rw [solveStep_dict hf, hget]
  cases w with
  | vNone => exact absurd rfl hnn
  | vBool b => simp [pyAdd, Value.hashable, Except.map]
  | vInt n => simp [pyAdd, Value.hashable, Except.map]
  | vStr s => simp [pyAdd, Value.hashable, Except.map]
  | vList l => exact absurd hw (by simp [Value.hashable])
  | vDict d => exact absurd hw (by simp [Value.hashable])

/-- Scan characterization for an Integer field: the scan never raises and
never logs; the result set gains exactly the zero-padded renderings of the
`int` candidates. -/
lemma fieldScan_int {f : Field} (hf : f.ftype = INT_TYPE) :
    ∀ (vs rv lg : List Value), ∃ rv',
      fieldScan f vs rv lg = .ok (rv', lg)
      ∧ (∀ t ∈ rv',
          t ∈ rv ∨ ∃ n : Int, .vInt n ∈ vs ∧ t = .vStr (zfill n.repr f.padding))
      ∧ (∀ n : Int, .vInt n ∈ vs → .vStr (zfill n.repr f.padding) ∈ rv')
      ∧ (∀ t ∈ rv, t ∈ rv') := by
  intro vs
  induction vs with
  | nil =>
    intro rv lg
    exact ⟨rv, by simp [fieldScan], fun t ht => Or.inl ht, by simp, fun t ht => ht⟩
  | cons v vs ih =>
    intro rv lg
    cases v with
    | vInt n =>
      have hstep := solveStep_int_vInt hf rv lg n
      by_cases hany : rv.any (fun x => pyEq x (.vStr (zfill n.repr f.padding))) = true
      · rw [hany] at hstep
        simp only [if_true] at hstep
        obtain ⟨x0, hx0, hpe⟩ := List.any_eq_true.mp hany
        have hx0eq : x0 = .vStr (zfill n.repr f.padding) := (pyEq_vStr_iff _ _).mp hpe
        obtain ⟨rv', hscan, h1, h2, h3⟩ := ih rv lg
        refine ⟨rv', ?_, ?_, ?_, h3⟩
        · simp only [fieldScan, hstep]
          exact hscan
        · intro t ht
          rcases h1 t ht with hin | ⟨m, hm, ht'⟩
          · exact Or.inl hin
          · exact Or.inr ⟨m, List.mem_cons_of_mem _ hm, ht'⟩
        · intro m hm
          rcases List.mem_cons.mp hm with heq | hm'
          · rcases heq with ⟨⟩
            exact h3 _ (hx0eq ▸ hx0)
          · exact h2 m hm'
      · rw [Bool.not_eq_true] at hany
        rw [hany] at hstep
        simp only [Bool.false_eq_true, if_false] at hstep
        obtain ⟨rv', hscan, h1, h2, h3⟩ := ih (rv ++ [.vStr (zfill n.repr f.padding)]) lg
        refine ⟨rv', ?_, ?_, ?_, ?_⟩
        · simp only [fieldScan, hstep]
          exact hscan
        · intro t ht
          rcases h1 t ht with hin | ⟨m, hm, ht'⟩
          · rcases List.mem_append.mp hin with hin' | hin'
            · exact Or.inl hin'
            · have : t = .vStr (zfill n.repr f.padding) := by simpa using hin'
              exact Or.inr ⟨n, List.mem_cons_self _ _, this⟩
          · exact Or.inr ⟨m, List.mem_cons_of_mem _ hm, ht'⟩
        · intro m hm
          rcases List.mem_cons.mp hm with heq | hm'
          · rcases heq with ⟨⟩
            exact h3 _ (List.mem_append_right _ (by simp))
          · exact h2 m hm'
        · intro t ht
          exact h3 t (List.mem_append_left _ ht)
    | vNone =>
      obtain ⟨rv', hscan, h1, h2, h3⟩ := ih rv lg
      refine ⟨rv', ?_, ?_, ?_, h3⟩
      · simp only [fieldScan, solveStep_int_other hf rv lg (.vNone ..) rfl]
        exact hscan
      · intro t ht
        rcases h1 t ht with hin | ⟨m, hm, ht'⟩
        · exact Or.inl hin
        · exact Or.inr ⟨m, List.mem_cons_of_mem _ hm, ht'⟩
      · intro m hm
        rcases List.mem_cons.mp hm with heq | hm'
        · exact absurd heq (by simp)
        · exact h2 m hm'
    | vBool b =>
      obtain ⟨rv', hscan, h1, h2, h3⟩ := ih rv lg
      refine ⟨rv', ?_, ?_, ?_, h3⟩
      · simp only [fieldScan, solveStep_int_other hf rv lg (.vBool ..) rfl]
        exact hscan
      · intro t ht
        rcases h1 t ht with hin | ⟨m, hm, ht'⟩
        · exact Or.inl hin
        · exact Or.inr ⟨m, List.mem_cons_of_mem _ hm, ht'⟩
      · intro m hm
        rcases List.mem_cons.mp hm with heq | hm'
        · exact absurd heq (by simp)
        · exact h2 m hm'
    | vStr s =>
      obtain ⟨rv', hscan, h1, h2, h3⟩ := ih rv lg
      refine ⟨rv', ?_, ?_, ?_, h3⟩
      · simp only [fieldScan, solveStep_int_other hf rv lg (.vStr ..) rfl]
        exact hscan
      · intro t ht
        rcases h1 t ht with hin | ⟨m, hm, ht'⟩
        · exact Or.inl hin
        · exact Or.inr ⟨m, List.mem_cons_of_mem _ hm, ht'⟩
      · intro m hm
        rcases List.mem_cons.mp hm with heq | hm'
        · exact absurd heq (by simp)
        · exact h2 m hm'
    | vList l =>
      obtain ⟨rv', hscan, h1, h2, h3⟩ := ih rv lg
      refine ⟨rv', ?_, ?_, ?_, h3⟩
      · simp only [fieldScan, solveStep_int_other hf rv lg (.vList ..) rfl]
        exact hscan
      · intro t ht
        rcases h1 t ht with hin | ⟨m, hm, ht'⟩
        · exact Or.inl hin
        · exact Or.inr ⟨m, List.mem_cons_of_mem _ hm, ht'⟩
      · intro m hm
        rcases List.mem_cons.mp hm with heq | hm'
        · exact absurd heq (by simp)
        · exact h2 m hm'
    | vDict d =>
      obtain ⟨rv', hscan, h1, h2, h3⟩ := ih rv lg
      refine ⟨rv', ?_, ?_, ?_, h3⟩
      · simp only [fieldScan, solveStep_int_other hf rv lg (.vDict ..) rfl]
        exact hscan
      · intro t ht
        rcases h1 t ht with hin | ⟨m, hm, ht'⟩
        · exact Or.inl hin
        · exact Or.inr ⟨m, List.mem_cons_of_mem _ hm, ht'⟩
      · intro m hm
        rcases List.mem_cons.mp hm with heq | hm'
        · exact absurd heq (by simp)
        · exact h2 m hm'

/-- On a hashable candidate, one loop iteration of `Field.solve` never
raises, provided the mapped values of a Lookup field are hashable; the log
gains the candidate exactly when the field is not an Integer field. -/
lemma solveStep_total (f : Field) (v : Value) (rv lg : List Value)
    (hv : v.hashable = true)
    (hm : ∀ p ∈ f.value.dictEntries, (Prod.snd p).hashable = true) :
    ∃ rv', solveStep f rv lg v =
      .ok (rv', lg ++ (if f.ftype = INT_TYPE then [] else [v])) := by
  by_cases hstr : f.ftype = STR_TYPE
  · have hne : f.ftype ≠ INT_TYPE := by rw [hstr]; simp [STR_TYPE, INT_TYPE]
    rw [solveStep_str hstr, if_neg hne]
    by_cases hc : v.isStr = false ∧ f.required = true
    · rw [if_pos hc, pyAdd_hashable rv v hv]
      refine ⟨if rv.any (fun x => pyEq x v) then rv else rv ++ [v], ?_⟩
      simp [Except.map]
    · rw [if_neg hc]
      exact ⟨rv, rfl⟩
  · by_cases hdict : f.ftype = DICT_TYPE
    · have hne : f.ftype ≠ INT_TYPE := by rw [hdict]; simp [DICT_TYPE, INT_TYPE]
      rw [solveStep_dict hdict, if_neg hne, pyGet_hashable _ _ hv]
      cases hfind : f.value.dictEntries.find? (fun p => pyEq p.1 v) with
      | none => exact ⟨rv, rfl⟩
      | some p =>
        obtain ⟨pk, pw⟩ := p
        have hph : pw.hashable = true := by
          simpa using hm (pk, pw) (List.mem_of_find?_eq_some hfind)
        cases pw with
        | vNone => exact ⟨rv, rfl⟩
        | vBool b =>
          refine ⟨if rv.any (fun x => pyEq x (.vBool b)) then rv else rv ++ [.vBool b], ?_⟩
          show Except.map (fun rv1 => (rv1, lg ++ [v])) (pyAdd rv (.vBool b)) = _
          rw [pyAdd_hashable rv (.vBool b) (by simp [Value.hashable])]
          simp [Except.map]
        | vInt n =>
          refine ⟨if rv.any (fun x => pyEq x (.vInt n)) then rv else rv ++ [.vInt n], ?_⟩
          show Except.map (fun rv1 => (rv1, lg ++ [v])) (pyAdd rv (.vInt n)) = _
          rw [pyAdd_hashable rv (.vInt n) (by simp [Value.hashable])]
          simp [Except.map]
        | vStr s =>
          refine ⟨if rv.any (fun x => pyEq x (.vStr s)) then rv else rv ++ [.vStr s], ?_⟩
          show Except.map (fun rv1 => (rv1, lg ++ [v])) (pyAdd rv (.vStr s)) = _
          rw [pyAdd_hashable rv (.vStr s) (by simp [Value.hashable])]
          simp [Except.map]
        | vList l => exact absurd hph (by simp [Value.hashable])
        | vDict d => exact absurd hph (by simp [Value.hashable])
    · by_cases hint : f.ftype = INT_TYPE
      · rw [if_pos hint]
        cases v with
        | vInt n =>
          rw [solveStep_int_vInt hint]
          refine ⟨if rv.any (fun x => pyEq x (.vStr (zfill n.repr f.padding))) then rv
                  else rv ++ [.vStr (zfill n.repr f.padding)], ?_⟩
          simp
        | vNone => rw [solveStep_int_other hint rv lg (.vNone ..) rfl]; exact ⟨rv, by simp⟩
        | vBool b => rw [solveStep_int_other hint rv lg (.vBool ..) rfl]; exact ⟨rv, by simp⟩
        | vStr s => rw [solveStep_int_other hint rv lg (.vStr ..) rfl]; exact ⟨rv, by simp⟩
        | vList l => rw [solveStep_int_other hint rv lg (.vList ..) rfl]; exact ⟨rv, by simp⟩
        | vDict d => rw [solveStep_int_other hint rv lg (.vDict ..) rfl]; exact ⟨rv, by simp⟩
      · rw [if_neg hint]
        refine ⟨rv, ?_⟩
        simp [solveStep, hstr, hdict, hint]

/-- Over hashable candidates, the scan loop of `Field.solve` never raises,
and the log is exactly the candidate list for non-Integer fields and empty
for Integer fields. -/
lemma fieldScan_total (f : Field)
    (hm : ∀ p ∈ f.value.dictEntries, (Prod.snd p).hashable = true) :
    ∀ (vs rv lg : List Value), (∀ v ∈ vs, v.hashable = true) →
      ∃ rv', fieldScan f vs rv lg =
        .ok (rv', lg ++ (if f.ftype = INT_TYPE then [] else vs)) := by
  intro vs
  induction vs with
  | nil => intro rv lg _; exact ⟨rv, by simp [fieldScan]⟩
  | cons v vs ih =>
    intro rv lg hv
    obtain ⟨rv1, hstep⟩ :=
      solveStep_total f v rv lg (hv v (List.mem_cons_self _ _)) hm
    obtain ⟨rv', hscan⟩ :=
      ih rv1 (lg ++ (if f.ftype = INT_TYPE then [] else [v]))
        (fun x hx => hv x (List.mem_cons_of_mem _ hx))
    refine ⟨rv', ?_⟩
    simp only [fieldScan, hstep, hscan]
    by_cases hint : f.ftype = INT_TYPE <;> simp [hint]

/-- Unfolding of the default-fallback step of `Field.solve` after a
successful scan. -/
lemma solve_of_scan {f : Field} {vs rv lg : List Value}
    (h : fieldScan f vs [] [] = .ok (rv, lg)) :
    Field.solve f vs =
      if rv.isEmpty ∧ f.default.truthy = true then
        (pyAdd rv f.default).map (fun rv1 => (rv1, lg))
      else .ok (rv, lg) := by
  unfold Field.solve
  rw [h]
  show (if rv.isEmpty ∧ f.default.truthy = true then
          match pyAdd rv f.default with
          | Except.error e => (Except.error e : Except String (List Value × List Value))
          | Except.ok rv1 => Except.ok (rv1, lg)
        else Except.ok (rv, lg)) = _
  by_cases hc : rv.isEmpty ∧ f.default.truthy = true
  · rw [if_pos hc, if_pos hc]
    cases hadd : pyAdd rv f.default with
    | error e => simp [Except.map]
    | ok rv1 => simp [Except.map]
  · rw [if_neg hc, if_neg hc]

/-- Inversion of a successful `Field.solveTokens`. -/
lemma solveTokens_ok {f : Field} {vs toks : List Value}
    (h : Field.solveTokens f vs = .ok toks) :
    ∃ lg, Field.solve f vs = .ok (toks, lg) := by
  unfold Field.solveTokens at h
  cases hs : f.solve vs with
  | error e => rw [hs] at h; exact absurd h (by simp [Except.map])
  | ok p =>
    obtain ⟨a, b⟩ := p
    rw [hs] at h
    simp only [Except.map] at h
    rcases h with ⟨⟩
    exact ⟨b, rfl⟩

/-! Concrete objects used by the closed evaluations below. -/

/-- The Lookup field built by `Field("kind", {"char": "c"})`. -/
def kindField : Field :=
  ⟨"kind", true, .vDict [(.vStr "char", .vStr "c")], DICT_TYPE, 0, .vStr "c"⟩

/-- A profile holding the single field `kindField`. -/
def demoProfile : Profile := ⟨"P", [("kind", kindField)], "_"⟩

/-! Claim theorems. -/

/-- Claim C1 (code bug): `Profile.solve` is meant to return the ordered
list of (field name, token set) pairs, but `rval.append(name,
field.solve(*values))` calls `list.append` with two arguments, so on any
profile with at least one field the call raises `TypeError` after solving
the first field; only an empty profile returns a (trivially empty) list. -/
theorem profile_solve_append_bug :
    initDict "kind" [(.vStr "char", .vStr "c")] true none = some kindField
    ∧ Profile.solve demoProfile [.vStr "char"] = .error appendError
    ∧ Profile.solve ⟨"P", [], "_"⟩ [.vStr "char"] = .ok [] :=
  ⟨rfl, rfl, rfl⟩

/-- Claim C7 (code bug): `Profile.unsolve` splits the name on the
separator but performs no token-count check (no `TokenCountError` exists
anywhere in the source); whatever the token count — here two tokens
against one field, and also one token against one field — the loop raises
`TypeError` from the two-argument `list.append`, after `Field.unsolve`
(whose body is `pass`) returned `None`. -/
theorem profile_unsolve_append_bug :
    pySplit "a_b" demoProfile.separator = ["a", "b"]
    ∧ demoProfile.fields.length = 1
    ∧ Profile.unsolve demoProfile "a_b" = .error appendError
    ∧ Profile.unsolve demoProfile "a" = .error appendError :=
  ⟨rfl, rfl, rfl, rfl⟩

/-- Claim C8 (counterexample): on a non-existent storage directory,
`JSONDriver.load()` returns Python `None` (the guard is `return` with no
value), not an empty mapping as the claim states. -/
theorem json_load_missing_dir_returns_none :
    jsonDriverLoad (jsonDriverInit none) = none
    ∧ (none : Option (List (String × String))) ≠ some [] :=
  ⟨rfl, by simp⟩

/-- Claim C8 (amended): `JSONDriver.load()` on an existing empty directory
returns an empty mapping; on a non-existent directory it returns an
absent (`None`) value — in neither case an error. -/
theorem json_load_empty_spec :
    jsonDriverLoad (jsonDriverInit (some [])) = some []
    ∧ jsonDriverLoad (jsonDriverInit none) = none :=
  ⟨rfl, rfl⟩

/-- Claim C9 (code bug): `JSONDriver.dump` can never write: the guard
`if os.path.exists(self.path): os.mkdir(self.path)` is inverted, so with
an existing directory `os.mkdir` raises `OSError`, and with a missing
directory the directory is never created and the first `open(..., "w")`
raises `IOError` (on a freshly initialized driver the missing directory
additionally leaves `self.value = None`, so the inherited memo update
raises `AttributeError` first).  The claimed dump-then-load round trip
therefore never succeeds. -/
theorem json_dump_always_fails :
    jsonDriverDump (jsonDriverInit (some [])) [("FIELDS", "x")]
      = .error "OSError: [Errno 17] File exists"
    ∧ jsonDriverDump (jsonDriverInit none) [("FIELDS", "x")]
      = .error "AttributeError: NoneType object has no attribute update"
    ∧ jsonDriverDump ⟨some [], none⟩ [("FIELDS", "x")]
      = .error "IOError: [Errno 2] No such file or directory" :=
  ⟨rfl, rfl, rfl⟩

/-- Claim C2 (counterexample): an Integer field with padding 3 accepts the
integer -5 and produces the token "-05", which does not consist of digits
(its first character is the minus sign), refuting the digits clause of the
claim. -/
theorem int_field_negative_not_digits :
    Field.solveTokens (initInt "version" 0 true (some 3) none) [.vInt (-5)]
      = .ok [.vStr "-05"]
    ∧ ('-') ∈ ("-05" : String).data ∧ ('-').isDigit = false :=
  ⟨rfl, by decide, by decide⟩

/-- Claim C4 (counterexample): a Text field with the configured default ""
(the empty string) and no matching candidate returns the empty set, not
the singleton of the default: the guard `if not len(rval) and
self.default` tests Python truthiness, and the empty string is falsy. -/
theorem default_empty_string_not_added :
    (initStr "x" "text" true (some (.vStr ""))).default = .vStr ""
    ∧ Field.solveTokens (initStr "x" "text" true (some (.vStr ""))) [] = .ok []
    ∧ ([] : List Value) ≠ [.vStr ""] :=
  ⟨rfl, rfl, by simp⟩

/-- Claim C6 (counterexample): an unrecognized candidate can abort
`Field.solve`.  A `list` candidate is hashed by `dict.get` on a Lookup
field and by `set.add` on a required Text field, and both raise
`TypeError`, so `solve` raises instead of skipping and continuing. -/
theorem lookup_field_unhashable_aborts :
    Field.solve kindField [.vList []] = .error unhashableError
    ∧ Field.solve (initStr "x" "text" true none) [.vList []]
      = .error unhashableError :=
  ⟨rfl, rfl⟩

/-- Claim C10 (counterexample): for a Lookup field built from the mapping
whose first value is the empty string and with no explicit default, the
default becomes that falsy first value, and `solve` on a non-matching
candidate returns the empty set — not the claimed singleton of the first
mapping value. -/
theorem dict_default_falsy_empty_result :
    (initDict "kind" [(.vStr "k", .vStr "")] true none).map Field.default
      = some (.vStr "")
    ∧ (initDict "kind" [(.vStr "k", .vStr "")] true none).map
        (fun f => Field.solveTokens f [.vStr "absent"]) = some (.ok [])
    ∧ ([] : List Value) ≠ [.vStr ""] :=
  ⟨rfl, rfl, by simp⟩

/-- Claim C4 (amended): for every field, if the scan over all candidates
succeeds with an empty result set and the configured default is truthy
(non-empty) and hashable, then `Field.solve` returns the singleton set
containing the default. -/
theorem default_fallback_spec (f : Field) (vs rv lg : List Value)
    (hscan : fieldScan f vs [] [] = .ok (rv, lg)) (hempty : rv = [])
    (htr : f.default.truthy = true) (hh : f.default.hashable = true) :
    Field.solveTokens f vs = .ok [f.default] := by
  subst hempty
  unfold Field.solveTokens
  rw [solve_of_scan hscan]
  rw [if_pos ⟨rfl, htr⟩]
  rw [pyAdd_hashable [] f.default hh]
  simp [Except.map]

/-- Claim C4 witness: a Text field with default "default_token" and no
candidates returns exactly that singleton. -/
theorem default_fallback_spec_witness :
    Field.solveTokens (initStr "x" "text" true (some (.vStr "default_token"))) []
      = .ok [.vStr "default_token"] :=
  default_fallback_spec (initStr "x" "text" true (some (.vStr "default_token")))
    [] [] [] rfl rfl rfl rfl

/-- Claim C6 (amended): provided every candidate is hashable and the
field's lookup values and default are hashable, `Field.solve` never
raises: unrecognized candidates are skipped and processing continues over
the remaining candidates, and a result set is always returned.  The log
passed to `logging.error` is every candidate (recognized or not) for a
non-Integer field, and nothing for an Integer field. -/
theorem field_solve_hashable_total (f : Field) (vs : List Value)
    (hv : ∀ v ∈ vs, v.hashable = true)
    (hm : ∀ p ∈ f.value.dictEntries, (Prod.snd p).hashable = true)
    (hd : f.default.hashable = true) :
    ∃ toks, Field.solve f vs =
      .ok (toks, if f.ftype = INT_TYPE then [] else vs) := by
  obtain ⟨rv, hscan⟩ := fieldScan_total f hm vs [] [] hv
  have hscan' : fieldScan f vs [] [] =
      .ok (rv, if f.ftype = INT_TYPE then [] else vs) := by
    simpa using hscan
  rw [solve_of_scan hscan']
  by_cases hc : rv.isEmpty ∧ f.default.truthy = true
  · rw [if_pos hc, pyAdd_hashable rv f.default hd]
    refine ⟨if rv.any (fun x => pyEq x f.default) then rv else rv ++ [f.default], ?_⟩
    simp [Except.map]
  · rw [if_neg hc]
    exact ⟨rv, rfl⟩

/-- Claim C6 witness: a required Text field over the hashable candidates
`[7, "s"]` returns a result set without raising, logging both candidates. -/
theorem field_solve_hashable_total_witness :
    ∃ toks, Field.solve (initStr "x" "text" true none) [.vInt 7, .vStr "s"]
      = .ok (toks, [.vInt 7, .vStr "s"]) :=
  field_solve_hashable_total (initStr "x" "text" true none)
    [.vInt 7, .vStr "s"]
    (by intro v hv
        rcases List.mem_cons.mp hv with rfl | hv'
        · rfl
        · rcases List.mem_cons.mp hv' with rfl | hv''
          · rfl
          · exact absurd hv'' (by simp))
    (by intro p hp; exact absurd (show p ∈ ([] : List (Value × Value)) from hp) (by simp))
    rfl

/-- Claim C2 (amended): an Integer field with padding `P` accepts a
candidate only when it is exactly an `int` (every returned token is the
zero-padded rendering of some `int` candidate, or the field's default);
every `int` candidate `n` contributes the token `str(n).zfill(P)`; every
zero-padded rendering has length at least `P`, and consists of digits when
`n` is nonnegative (for negative `n` it carries a leading minus sign). -/
theorem int_field_solve_spec (nm : String) (v0 : Int) (req : Bool) (P : Nat)
    (dKw : Option Value) (vs : List Value) :
    ∃ toks, Field.solveTokens (initInt nm v0 req (some P) dKw) vs = .ok toks
    ∧ (∀ t ∈ toks,
        (∃ n : Int, .vInt n ∈ vs ∧ t = .vStr (zfill n.repr P))
        ∨ t = (initInt nm v0 req (some P) dKw).default)
    ∧ (∀ n : Int, .vInt n ∈ vs → .vStr (zfill n.repr P) ∈ toks)
    ∧ (∀ s : String, P ≤ (zfill s P).length)
    ∧ (∀ n : Int, 0 ≤ n → ∀ c ∈ (zfill n.repr P).data, c.isDigit = true) := by
  have hf : (initInt nm v0 req (some P) dKw).ftype = INT_TYPE := rfl
  have hpad : (initInt nm v0 req (some P) dKw).padding = P := rfl
  have hd : (initInt nm v0 req (some P) dKw).default.hashable = true := rfl
  obtain ⟨rv, hscan, h1, h2, h3⟩ := fieldScan_int hf vs [] []
  rw [hpad] at h1 h2
  by_cases hc : rv.isEmpty ∧ (initInt nm v0 req (some P) dKw).default.truthy = true
  · have hrv : rv = [] := by
      cases rv with
      | nil => rfl
      | cons a l => exact absurd hc.1 (by simp)
    refine ⟨[(initInt nm v0 req (some P) dKw).default], ?_, ?_, ?_,
      fun s => zfill_length s P,
      fun n hn => zfill_digits _ _ (int_repr_digits n hn)⟩
    · unfold Field.solveTokens
      rw [solve_of_scan hscan, if_pos hc,
        pyAdd_hashable rv (initInt nm v0 req (some P) dKw).default hd, hrv]
      simp [Except.map]
    · intro t ht
      have : t = (initInt nm v0 req (some P) dKw).default := by simpa using ht
      exact Or.inr this
    · intro n hn
      exact absurd (h2 n hn) (by rw [hrv]; simp)
  · refine ⟨rv, ?_, ?_, fun n hn => h2 n hn,
      fun s => zfill_length s P,
      fun n hn => zfill_digits _ _ (int_repr_digits n hn)⟩
    · unfold Field.solveTokens
      rw [solve_of_scan hscan, if_neg hc]
      simp [Except.map]
    · intro t ht
      rcases h1 t ht with hin | ⟨n, hn, ht'⟩
      · exact absurd hin (by simp)
      · exact Or.inl ⟨n, hn, ht'⟩

/-- Claim C2 witness: padding 3 over the candidates `[7, -5, "x"]`. -/
theorem int_field_solve_spec_witness :
    ∃ toks, Field.solveTokens (initInt "version" 0 true (some 3) none)
        [Value.vInt 7, Value.vInt (-5), Value.vStr "x"] = .ok toks
    ∧ (∀ t ∈ toks,
        (∃ n : Int, Value.vInt n ∈ [Value.vInt 7, Value.vInt (-5), Value.vStr "x"]
          ∧ t = Value.vStr (zfill n.repr 3))
        ∨ t = (initInt "version" 0 true (some 3) none).default)
    ∧ (∀ n : Int, Value.vInt n ∈ [Value.vInt 7, Value.vInt (-5), Value.vStr "x"]
        → Value.vStr (zfill n.repr 3) ∈ toks)
    ∧ (∀ s : String, 3 ≤ (zfill s 3).length)
    ∧ (∀ n : Int, 0 ≤ n → ∀ c ∈ (zfill n.repr 3).data, c.isDigit = true) :=
  int_field_solve_spec "version" 0 true 3 none [Value.vInt 7, Value.vInt (-5), Value.vStr "x"]

/-- Claim C5: on a Text field, a successful `Field.solve` accepts a
candidate only when it is not a string and the field is required; every
returned token is either such a candidate, carried verbatim (unchanged),
or the default; and every non-string candidate of a required field is
represented in the result (up to Python value equality, which deduplicates
the set).  In particular a string candidate never enters the result except
as the default. -/
theorem text_field_solve_spec (nm s : String) (req : Bool) (dKw : Option Value)
    (vs toks : List Value)
    (h : Field.solveTokens (initStr nm s req dKw) vs = .ok toks) :
    (∀ t ∈ toks, (t ∈ vs ∧ t.isStr = false ∧ req = true)
      ∨ t = (initStr nm s req dKw).default)
    ∧ (req = true → ∀ v ∈ vs, v.isStr = false →
        ∃ t ∈ toks, pyEq t v = true) := by
  obtain ⟨lg, hsolve⟩ := solveTokens_ok h
  have hf : (initStr nm s req dKw).ftype = STR_TYPE := rfl
  have hreq : (initStr nm s req dKw).required = req := rfl
  cases hscan : fieldScan (initStr nm s req dKw) vs [] [] with
  | error e =>
    unfold Field.solve at hsolve
    rw [hscan] at hsolve
    exact absurd hsolve (by simp)
  | ok p =>
    obtain ⟨rv, lg0⟩ := p
    obtain ⟨h1, h2, h3⟩ := fieldScan_str hf vs [] [] rv lg0 hscan
    rw [solve_of_scan hscan] at hsolve
    by_cases hc : rv.isEmpty ∧ (initStr nm s req dKw).default.truthy = true
    · rw [if_pos hc] at hsolve
      have hrv : rv = [] := by
        cases rv with
        | nil => rfl
        | cons a l => exact absurd hc.1 (by simp)
      cases hadd : pyAdd rv (initStr nm s req dKw).default with
      | error e =>
        rw [hadd] at hsolve
        exact absurd hsolve (by simp [Except.map])
      | ok rv1 =>
        rw [hadd] at hsolve
        simp only [Except.map] at hsolve
        have htoks : toks = rv1 := by
          have := hsolve
          rcases this with ⟨⟩
          rfl
        rcases pyAdd_ok hadd with ⟨-, ⟨⟨t0, ht0, -⟩, rfl⟩ | rfl⟩
        · exact absurd (hrv ▸ ht0) (by simp)
        · constructor
          · intro t ht
            rw [htoks, hrv] at ht
            have : t = (initStr nm s req dKw).default := by simpa using ht
            exact Or.inr this
          · intro hreq' v hv hvs
            obtain ⟨t, ht, -⟩ := h2 v hv hvs (hreq ▸ hreq')
            rw [hrv] at ht
            exact absurd ht (by simp)
    · rw [if_neg hc] at hsolve
      have htoks : toks = rv := by
        rcases hsolve with ⟨⟩
        rfl
      subst htoks
      constructor
      · intro t ht
        rcases h1 t ht with hin | ⟨hin, hs', hr⟩
        · exact absurd hin (by simp)
        · exact Or.inl ⟨hin, hs', hreq ▸ hr⟩
      · intro hreq' v hv hvs
        exact h2 v hv hvs (hreq ▸ hreq')

/-- Claim C5 witness: a required Text field over `[7, "s"]` accepts the
integer 7 verbatim and rejects the string "s". -/
theorem text_field_solve_spec_witness :
    (∀ t ∈ [Value.vInt 7],
        (t ∈ [Value.vInt 7, Value.vStr "s"] ∧ t.isStr = false ∧ true = true)
      ∨ t = (initStr "x" "text" true none).default)
    ∧ (true = true → ∀ v ∈ [Value.vInt 7, Value.vStr "s"], v.isStr = false →
        ∃ t ∈ [Value.vInt 7], pyEq t v = true) :=
  text_field_solve_spec "x" "text" true none
    [Value.vInt 7, Value.vStr "s"] [Value.vInt 7] rfl

/-- Claim C3: for a Lookup field, `solve` on a single candidate equal to a
mapping key (whose mapped token is hashable and not `None`) returns
exactly that key's mapped token; and `solve` over candidates that are all
absent from the mapping receives no contribution from them — the result
is the default fallback alone (the default's singleton when truthy,
the empty set otherwise). -/
theorem lookup_field_solve_spec (nm : String) (m : List (Value × Value))
    (req : Bool) (dKw : Option Value) (f : Field)
    (hf : initDict nm m req dKw = some f)
    (k tv : Value) (hget : pyGet m k = .ok tv) (hnn : tv ≠ .vNone)
    (htv : tv.hashable = true)
    (ks : List Value)
    (habs : ∀ x ∈ ks, x.hashable = true ∧ pyGet m x = .ok .vNone)
    (hd : f.default.hashable = true) :
    Field.solveTokens f [k] = .ok [tv]
    ∧ Field.solveTokens f ks =
        .ok (if f.default.truthy = true then [f.default] else []) := by
  cases m with
  | nil => exact absurd hf (by simp [initDict])
  | cons p rest =>
    obtain ⟨k0, v0⟩ := p
    have hft : f.ftype = DICT_TYPE := by
      simp only [initDict] at hf
      cases hf
      rfl
    have hval : f.value = .vDict ((k0, v0) :: rest) := by
      simp only [initDict] at hf
      cases hf
      rfl
    have hget' : pyGet f.value.dictEntries k = .ok tv := by
      rw [hval]
      exact hget
    have habs' : ∀ x ∈ ks,
        x.hashable = true ∧ pyGet f.value.dictEntries x = .ok .vNone := by
      intro x hx
      refine ⟨(habs x hx).1, ?_⟩
      rw [hval]
      exact (habs x hx).2
    constructor
    · have hstep := solveStep_dict_found hft hget' hnn htv [] []
      have hscan : fieldScan f [k] [] [] = .ok ([tv], [k]) := by
        simp only [fieldScan, hstep]
        simp [fieldScan]
      unfold Field.solveTokens
      rw [solve_of_scan hscan]
      rw [if_neg (by rintro ⟨hemp, -⟩; simp at hemp)]
      simp [Except.map]
    · have hscan := fieldScan_dict_absent hft ks [] [] habs'
      unfold Field.solveTokens
      rw [solve_of_scan (by simpa using hscan)]
      by_cases ht : f.default.truthy = true
      · rw [if_pos ⟨rfl, ht⟩, pyAdd_hashable [] f.default hd, if_pos ht]
        simp [Except.map]
      · rw [if_neg (by rintro ⟨-, h'⟩; exact ht h'), if_neg ht]
        simp [Except.map]

/-- Claim C3 witness: the mapping `{"char": "c"}`, the hit "char" and the
miss "nope". -/
theorem lookup_field_solve_spec_witness :
    Field.solveTokens kindField [Value.vStr "char"] = .ok [Value.vStr "c"]
    ∧ Field.solveTokens kindField [Value.vStr "nope"]
      = .ok (if kindField.default.truthy = true then [kindField.default] else []) :=
  lookup_field_solve_spec "kind" [(.vStr "char", .vStr "c")] true none kindField
    rfl (Value.vStr "char") (Value.vStr "c") rfl (by simp) rfl
    [Value.vStr "nope"]
    (by intro x hx
        have : x = Value.vStr "nope" := by simpa using hx
        subst this
        exact ⟨rfl, rfl⟩)
    rfl

/-- Claim C10 (amended): a Lookup field constructed from a non-empty
mapping without an explicit default takes the mapping's first value (in
the iteration order of the dict, modelled as insertion order) as its
default; when that value is truthy and hashable, `solve` over candidates
that all miss the mapping returns the singleton containing it.  (When the
first value is falsy, `solve` returns the empty set instead — see the
counterexample.) -/
theorem dict_field_first_value_default_spec (nm : String) (k0 v0 : Value)
    (rest : List (Value × Value)) (req : Bool) (f : Field)
    (hf : initDict nm ((k0, v0) :: rest) req none = some f)
    (ks : List Value)
    (habs : ∀ x ∈ ks, x.hashable = true ∧ pyGet ((k0, v0) :: rest) x = .ok .vNone)
    (htr : v0.truthy = true) (hh : v0.hashable = true) :
    f.default = v0 ∧ Field.solveTokens f ks = .ok [v0] := by
  have hft : f.ftype = DICT_TYPE := by
    simp only [initDict] at hf
    cases hf
    rfl
  have hval : f.value = .vDict ((k0, v0) :: rest) := by
    simp only [initDict] at hf
    cases hf
    rfl
  have hdef : f.default = v0 := by
    simp only [initDict] at hf
    cases hf
    rfl
  have habs' : ∀ x ∈ ks,
      x.hashable = true ∧ pyGet f.value.dictEntries x = .ok .vNone := by
    intro x hx
    refine ⟨(habs x hx).1, ?_⟩
    rw [hval]
    exact (habs x hx).2
  refine ⟨hdef, ?_⟩
  have hscan := fieldScan_dict_absent hft ks [] [] habs'
  unfold Field.solveTokens
  rw [solve_of_scan (by simpa using hscan)]
  rw [if_pos ⟨rfl, by rw [hdef]; exact htr⟩]
  rw [hdef, pyAdd_hashable [] v0 hh]
  simp [Except.map]

/-- Claim C10 witness: the mapping `{"char": "c"}` with no default keyword
gives default "c", and a missing candidate yields exactly `{"c"}`. -/
theorem dict_field_first_value_default_spec_witness :
    kindField.default = Value.vStr "c"
    ∧ Field.solveTokens kindField [Value.vStr "nope"] = .ok [Value.vStr "c"] :=
  dict_field_first_value_default_spec "kind" (Value.vStr "char") (Value.vStr "c")
    [] true kindField rfl [Value.vStr "nope"]
    (by intro x hx
        have : x = Value.vStr "nope" := by simpa using hx
        subst this
        exact ⟨rfl, rfl⟩)
    rfl rfl

end Naming
